import Mathlib

/-
Verification of the `tem` file-scaffolding CLI (src/tem.py) against its
natural-language specification.

Modelling conventions:
* File contents and string data are `List Char`.
* Filesystem paths are lists of components in *reversed* order: the head is
  the deepest component and `[]` is the filesystem root `/`.  The parent of
  `c :: rest` is `rest`, which matches `path.resolve() / '..'` in the source
  (the source resolves paths before recursing, so `..` is parent removal).
* The filesystem itself is passed in as explicit data (predicates / listings),
  since the Python code queries it through `Path.is_dir`, `Path.iterdir`,
  `open`, `read_text`.
* Machine-level I/O failures that the source does not branch on are outside
  the model; exceptions the source can raise are explicit `Except` errors.
-/

namespace Tem

/-! ## Placeholder substitution (`format_file`, tem.py lines 116-122) -/

/-- The literal placeholder token `@@tem:<key>@@` built by the f-string
`f'@@tem:{key}@@'` in `format_file`. -/
def token (key : List Char) : List Char :=
  "@@tem:".data ++ key ++ "@@".data

/-- Embedding of Python `str.replace(pat, rep)` for a non-empty pattern:
scan left to right, greedily replacing every non-overlapping occurrence of
`pat` by `rep` and resuming after the replaced occurrence.  The patterns used
by this program (`@@tem:<key>@@`) are never empty; for an empty pattern this
model returns the input unchanged (Python would interleave `rep` instead),
which the `pat ≠ []` guard keeps out of every reachable call. -/
def replaceAll (pat rep : List Char) : List Char → List Char
  | [] => []
  | c :: rest =>
    if h : pat ≠ [] ∧ pat.isPrefixOf (c :: rest) then
      rep ++ replaceAll pat rep ((c :: rest).drop pat.length)
    else
      c :: replaceAll pat rep rest
termination_by s => s.length
decreasing_by
  · have hp : 0 < pat.length := List.length_pos.mpr h.1
    simp only [List.length_drop, List.length_cons]
    omega
  · simp

/-- Embedding of `format_file` (tem.py lines 116-122) on file content:
`data` is the text read from the file, the result is the text written back.
The `arguments` association list carries the insertion order of the Python
dict, and the fold mirrors `for key, value in arguments.items()`. -/
def format_file (arguments : List (List Char × List Char)) (data : List Char) : List Char :=
  arguments.foldl (fun d kv => replaceAll (token kv.1) kv.2 d) data

/-- Greedy left-to-right split of `s` on occurrences of the pattern `pat`:
the pieces between the non-overlapping occurrences that `replaceAll`
replaces.  Specification-side companion of `replaceAll`. -/
def splitOnSub (pat : List Char) : List Char → List (List Char)
  | [] => [[]]
  | c :: rest =>
    if h : pat ≠ [] ∧ pat.isPrefixOf (c :: rest) then
      [] :: splitOnSub pat ((c :: rest).drop pat.length)
    else
      match splitOnSub pat rest with
      | [] => [[c]]
      | p :: ps => (c :: p) :: ps
termination_by s => s.length
decreasing_by
  · have hp : 0 < pat.length := List.length_pos.mpr h.1
    simp only [List.length_drop, List.length_cons]
    omega
  · simp

/-- Join a list of pieces, inserting `sep` between consecutive pieces. -/
def joinWith (sep : List Char) : List (List Char) → List Char
  | [] => []
  | [x] => x
  | x :: y :: rest => x ++ sep ++ joinWith sep (y :: rest)

/-- `containsSub pat s` decides whether `pat` occurs as a contiguous
substring of `s`. -/
def containsSub (pat : List Char) : List Char → Bool
  | [] => pat.isEmpty
  | c :: rest => pat.isPrefixOf (c :: rest) || containsSub pat rest

/-- Fuel-driven companion of `replaceAll`, used only to evaluate
`replaceAll` on concrete inputs by kernel reduction (the well-founded
definition itself does not reduce definitionally). -/
def replaceAllFuel (pat rep : List Char) : Nat → List Char → List Char
  | _, [] => []
  | 0, s => s
  | fuel + 1, c :: rest =>
    if pat ≠ [] ∧ pat.isPrefixOf (c :: rest) then
      rep ++ replaceAllFuel pat rep fuel ((c :: rest).drop pat.length)
    else
      c :: replaceAllFuel pat rep fuel rest

theorem token_ne_nil (key : List Char) : token key ≠ [] := by
  intro h
  have h6 : "@@tem:".data = ['@', '@', 't', 'e', 'm', ':'] := rfl
  rw [token, h6] at h
  simp at h

theorem replaceAll_nil (pat rep : List Char) : replaceAll pat rep [] = [] := by
  rw [replaceAll]

theorem replaceAllFuel_eq (pat rep : List Char) :
    ∀ fuel s, s.length ≤ fuel → replaceAllFuel pat rep fuel s = replaceAll pat rep s := by
  intro fuel
  induction fuel with
  | zero =>
    intro s hs
    have : s = [] := List.length_eq_zero.mp (Nat.le_zero.mp hs)
    subst this
    rw [replaceAll_nil]
    rfl
  | succ n ih =>
    intro s hs
    match s with
    | [] =>
      rw [replaceAll_nil]
      rfl
    | c :: rest =>
      rw [replaceAll, replaceAllFuel]
      by_cases h : pat ≠ [] ∧ pat.isPrefixOf (c :: rest)
      · rw [if_pos h, dif_pos h]
        congr 1
        apply ih
        have hp : 0 < pat.length := List.length_pos.mpr h.1
        simp only [List.length_drop, List.length_cons]
        simp only [List.length_cons] at hs
        omega
      · rw [if_neg h, dif_neg h]
        congr 1
        apply ih
        simp only [List.length_cons] at hs
        omega

theorem replaceAll_eval (pat rep s : List Char) :
    replaceAll pat rep s = replaceAllFuel pat rep s.length s :=
  (replaceAllFuel_eq pat rep s.length s (Nat.le_refl _)).symm

theorem splitOnSub_nil (pat : List Char) : splitOnSub pat [] = [[]] := by
  rw [splitOnSub]

theorem splitOnSub_ne_nil (pat : List Char) : ∀ s, splitOnSub pat s ≠ [] := by
  intro s
  match s with
  | [] => rw [splitOnSub_nil]; simp
  | c :: rest =>
    rw [splitOnSub]
    by_cases h : pat ≠ [] ∧ pat.isPrefixOf (c :: rest)
    · rw [dif_pos h]; simp
    · rw [dif_neg h]
      cases hsp : splitOnSub pat rest with
      | nil => simp
      | cons p ps => simp

theorem joinWith_nil_cons (sep : List Char) (l : List (List Char)) (hl : l ≠ []) :
    joinWith sep ([] :: l) = sep ++ joinWith sep l := by
  match l with
  | [] => exact absurd rfl hl
  | x :: xs => simp [joinWith]

theorem joinWith_cons_cons (sep : List Char) (c : Char) (p : List Char)
    (ps : List (List Char)) :
    joinWith sep ((c :: p) :: ps) = c :: joinWith sep (p :: ps) := by
  match ps with
  | [] => simp [joinWith]
  | q :: qs => simp [joinWith]

/-- `replaceAll` produces exactly the greedy split pieces joined with the
replacement string. -/
theorem replaceAll_eq_joinWith (pat rep : List Char) :
    ∀ s, replaceAll pat rep s = joinWith rep (splitOnSub pat s) := by
  have key : ∀ (n : Nat) (s : List Char), s.length ≤ n →
      replaceAll pat rep s = joinWith rep (splitOnSub pat s) := by
    intro n
    induction n with
    | zero =>
      intro s hs
      have : s = [] := List.length_eq_zero.mp (Nat.le_zero.mp hs)
      subst this
      rw [replaceAll_nil, splitOnSub_nil]
      rfl
    | succ n ih =>
      intro s hs
      match s with
      | [] =>
        rw [replaceAll_nil, splitOnSub_nil]
        rfl
      | c :: rest =>
        rw [replaceAll, splitOnSub]
        by_cases h : pat ≠ [] ∧ pat.isPrefixOf (c :: rest)
        · rw [dif_pos h, dif_pos h]
          rw [joinWith_nil_cons rep _ (splitOnSub_ne_nil pat _)]
          congr 1
          apply ih
          have hp : 0 < pat.length := List.length_pos.mpr h.1
          simp only [List.length_drop, List.length_cons]
          simp only [List.length_cons] at hs
          omega
        · rw [dif_neg h, dif_neg h]
          cases hsp : splitOnSub pat rest with
          | nil => exact absurd hsp (splitOnSub_ne_nil pat rest)
          | cons p ps =>
            rw [joinWith_cons_cons]
            congr 1
            rw [← hsp]
            apply ih
            simp only [List.length_cons] at hs
            omega
  intro s
  exact key s.length s (Nat.le_refl _)

/-- Joining the greedy split pieces with the pattern itself reconstructs the
input: every boundary the split introduces is a genuine occurrence of the
pattern in the input. -/
theorem joinWith_splitOnSub (pat : List Char) :
    ∀ s, joinWith pat (splitOnSub pat s) = s := by
  have key : ∀ (n : Nat) (s : List Char), s.length ≤ n →
      joinWith pat (splitOnSub pat s) = s := by
    intro n
    induction n with
    | zero =>
      intro s hs
      have : s = [] := List.length_eq_zero.mp (Nat.le_zero.mp hs)
      subst this
      rw [splitOnSub_nil]
      rfl
    | succ n ih =>
      intro s hs
      match s with
      | [] =>
        rw [splitOnSub_nil]
        rfl
      | c :: rest =>
        rw [splitOnSub]
        by_cases h : pat ≠ [] ∧ pat.isPrefixOf (c :: rest)
        · rw [dif_pos h]
          rw [joinWith_nil_cons pat _ (splitOnSub_ne_nil pat _)]
          obtain ⟨t, ht⟩ := List.isPrefixOf_iff_prefix.mp h.2
          have hdrop : (c :: rest).drop pat.length = t := by
            rw [← ht, List.drop_left]
          rw [hdrop]
          have hlen : t.length ≤ n := by
            have hp : 0 < pat.length := List.length_pos.mpr h.1
            have hlc : (c :: rest).length = pat.length + t.length := by
              rw [← ht, List.length_append]
            simp only [List.length_cons] at hlc hs
            omega
          rw [ih t hlen, ht]
        · rw [dif_neg h]
          cases hsp : splitOnSub pat rest with
          | nil => exact absurd hsp (splitOnSub_ne_nil pat rest)
          | cons p ps =>
            rw [joinWith_cons_cons]
            congr 1
            rw [← hsp]
            apply ih
            simp only [List.length_cons] at hs
            omega
  intro s
  exact key s.length s (Nat.le_refl _)

/-- The head piece of the greedy split is a prefix of the input. -/
theorem splitOnSub_head_prefix (pat : List Char) :
    ∀ s p ps, splitOnSub pat s = p :: ps → p <+: s := by
  intro s
  induction s with
  | nil =>
    intro p ps hp
    rw [splitOnSub_nil] at hp
    injection hp with h1 h2
    subst h1
    exact List.prefix_refl _
  | cons c rest ih =>
    intro p ps hp
    rw [splitOnSub] at hp
    by_cases h : pat ≠ [] ∧ pat.isPrefixOf (c :: rest)
    · rw [dif_pos h] at hp
      have : p = [] := by
        injection hp with h1 h2
        exact h1.symm
      subst this
      exact List.nil_prefix
    · rw [dif_neg h] at hp
      cases hsp : splitOnSub pat rest with
      | nil => exact absurd hsp (splitOnSub_ne_nil pat rest)
      | cons q qs =>
        rw [hsp] at hp
        injection hp with h1 h2
        subst h1
        have hq : q <+: rest := ih q qs hsp
        exact (List.cons_prefix_cons).mpr ⟨rfl, hq⟩

/-- No piece of the greedy split contains the pattern: every occurrence of
the pattern is consumed by the split. -/
theorem splitOnSub_pieces_free (pat : List Char) (hpat : pat ≠ []) :
    ∀ s, (splitOnSub pat s).all (fun piece => !(containsSub pat piece)) = true := by
  have key : ∀ (n : Nat) (s : List Char), s.length ≤ n →
      (splitOnSub pat s).all (fun piece => !(containsSub pat piece)) = true := by
    intro n
    induction n with
    | zero =>
      intro s hs
      have : s = [] := List.length_eq_zero.mp (Nat.le_zero.mp hs)
      subst this
      rw [splitOnSub_nil]
      simp [containsSub, List.isEmpty_iff, hpat]
    | succ n ih =>
      intro s hs
      match s with
      | [] =>
        rw [splitOnSub_nil]
        simp [containsSub, List.isEmpty_iff, hpat]
      | c :: rest =>
        rw [splitOnSub]
        by_cases h : pat ≠ [] ∧ pat.isPrefixOf (c :: rest)
        · rw [dif_pos h]
          rw [List.all_cons]
          rw [Bool.and_eq_true]
          constructor
          · simp [containsSub, List.isEmpty_iff, hpat]
          · apply ih
            have hp : 0 < pat.length := List.length_pos.mpr hpat
            simp only [List.length_drop, List.length_cons]
            simp only [List.length_cons] at hs
            omega
        · rw [dif_neg h]
          have hrest : (splitOnSub pat rest).all (fun piece => !(containsSub pat piece)) = true := by
            apply ih
            simp only [List.length_cons] at hs
            omega
          cases hsp : splitOnSub pat rest with
          | nil => exact absurd hsp (splitOnSub_ne_nil pat rest)
          | cons p ps =>
            rw [hsp] at hrest
            rw [List.all_cons, Bool.and_eq_true] at hrest ⊢
            obtain ⟨hhead, htail⟩ := hrest
            refine ⟨?_, htail⟩
            have hpfree : containsSub pat p = false := by
              cases hc : containsSub pat p
              · rfl
              · rw [hc] at hhead; simp at hhead
            have hnotpre : ¬ pat.isPrefixOf (c :: p) = true := by
              intro hpre
              apply h
              refine ⟨hpat, ?_⟩
              have hpp : p <+: rest := splitOnSub_head_prefix pat rest p ps hsp
              have h1 : pat <+: c :: p := List.isPrefixOf_iff_prefix.mp hpre
              have h2 : (c :: p) <+: (c :: rest) := (List.cons_prefix_cons).mpr ⟨rfl, hpp⟩
              exact List.isPrefixOf_iff_prefix.mpr (h1.trans h2)
            simp only [containsSub, Bool.not_eq_true']
            rw [Bool.or_eq_false_iff]
            constructor
            · cases hc : pat.isPrefixOf (c :: p)
              · rfl
              · exact absurd hc hnotpre
            · exact hpfree
  intro s
  exact key s.length s (Nat.le_refl _)

theorem format_file_foldl_joinWith :
    ∀ (args : List (List Char × List Char)) (data : List Char),
      format_file args data =
        args.foldl (fun d kv => joinWith kv.2 (splitOnSub (token kv.1) d)) data := by
  intro args
  induction args with
  | nil => intro data; rfl
  | cons kv rest ih =>
    intro data
    show format_file rest (replaceAll (token kv.1) kv.2 data) = _
    rw [List.foldl_cons, ih, replaceAll_eq_joinWith]

/-- Claim C1 (counterexample): with only key `a` supplied, the input
`@@tem:a@@tem:b@@` contains an occurrence of the unsupplied key's token
`@@tem:b@@`, yet that occurrence does not remain in the output: replacing
the overlapping occurrence of `@@tem:a@@` destroys it.  So it is false that
tokens of unsupplied keys always remain unchanged in the output. -/
theorem c1_counterexample :
    containsSub (token ['b']) "@@tem:a@@tem:b@@".data = true
    ∧ containsSub (token ['b'])
        (format_file [(['a'], ['X'])] "@@tem:a@@tem:b@@".data) = false := by
  constructor
  · decide
  · have h : format_file [(['a'], ['X'])] "@@tem:a@@tem:b@@".data
        = replaceAll (token ['a']) ['X'] "@@tem:a@@tem:b@@".data := rfl
    rw [h, replaceAll_eval]
    decide

/-- Claim C1 (amended): substitution is applied per supplied key,
sequentially.  Each key's pass rewrites the current text into the greedy
left-to-right non-overlapping decomposition on its token, with every such
occurrence replaced by the value: joining the pieces with the token
reconstructs the pre-pass text (the boundaries are genuine occurrences,
so every one of them is replaced by the value), and no piece contains the
token (no occurrence is left behind).  Tokens of unsupplied keys are
never rewritten by a pass, but an occurrence that overlaps a replaced
occurrence of a supplied key's token can be destroyed (see the
counterexample). -/
theorem c1_greedy_replacement :
    ∀ (args : List (List Char × List Char)) (data : List Char),
      (format_file args data =
        args.foldl (fun d kv => joinWith kv.2 (splitOnSub (token kv.1) d)) data)
      ∧ ∀ (k s : List Char),
          joinWith (token k) (splitOnSub (token k) s) = s
          ∧ (splitOnSub (token k) s).all
              (fun piece => !(containsSub (token k) piece)) = true := by
  intro args data
  refine ⟨format_file_foldl_joinWith args data, fun k s => ⟨?_, ?_⟩⟩
  · exact joinWith_splitOnSub (token k) s
  · exact splitOnSub_pieces_free (token k) (token_ne_nil k) s

/-- Claim C2: substitution is applied per key sequentially in the order of
the arguments mapping, each pass scanning the text produced by the previous
passes; consequently replacements cascade: with arguments
`a ↦ @@tem:b@@, b ↦ x` (in that order) applied to `@@tem:a@@`, the first
pass produces `@@tem:b@@` and the second replaces it, yielding `x` rather
than the `@@tem:b@@` a simultaneous single pass would produce. -/
theorem c2_sequential_cascading :
    (∀ (k v : List Char) (rest : List (List Char × List Char)) (data : List Char),
      format_file ((k, v) :: rest) data = format_file rest (replaceAll (token k) v data))
    ∧ format_file [(['a'], token ['b']), (['b'], ['x'])] (token ['a']) = ['x']
    ∧ (token ['b'] == ['x']) = false := by
  refine ⟨fun k v rest data => rfl, ?_, by decide⟩
  have h : format_file [(['a'], token ['b']), (['b'], ['x'])] (token ['a'])
      = replaceAll (token ['b']) ['x']
          (replaceAll (token ['a']) (token ['b']) (token ['a'])) := rfl
  rw [h, replaceAll_eval (token ['a']), replaceAll_eval (token ['b'])]
  decide

/-- Claim C9: `format_file` with an empty arguments mapping is the identity
on file content: the text written back equals the text read. -/
theorem c9_empty_arguments_identity :
    ∀ data : List Char, format_file [] data = data :=
  fun _ => rfl

/-! ## Errors (tem.py lines 27-42 and 156-165) -/

/-- The `TemError` hierarchy: `TemplateDoesNotExist`, `TemdirDoesNotExist`,
`InvalidTemplateError` and `UsageError` (with its `offer_help` flag).  These
are the exceptions `main` catches. -/
inductive TemError where
  | temdirDoesNotExist
  | templateDoesNotExist (name : String)
  | invalidTemplate (msg : String)
  | usageError (msg : String) (offerHelp : Bool)
deriving DecidableEq

/-- The user-visible text of a `TemError`: the messages built by the
exception constructors, and `UsageError.__str__` which appends the help
pointer exactly when `offer_help` is set. -/
def temErrorMessage : TemError → String
  | .temdirDoesNotExist =>
      "`TEMplates` directory does not exist on the current or any upper level"
  | .templateDoesNotExist name => "No such template: " ++ name
  | .invalidTemplate msg => msg
  | .usageError msg offerHelp =>
      if offerHelp then msg ++ "\nFor the list of available commands see `tem help`"
      else msg

/-- A failure escaping a command: either a `TemError` (caught by `main` and
printed as `Error: <message>` with exit code 1) or another Python exception
such as `FileNotFoundError` from `open` or a YAML parse error (uncaught by
`main`: the interpreter prints a traceback and also exits non-zero). -/
inductive Failure where
  | tem (e : TemError)
  | io (msg : String)
deriving DecidableEq

/-! ## Directory locator (`find_temdir`, tem.py lines 45-56)

Paths are reversed component lists: `[]` is the filesystem root `/`, and
`c :: rest` is the directory `c` inside `rest`.  The source resolves
`search_path` and moves to `search_path / '..'`, i.e. to the parent, which
is `List.tail`; the root is its own fixed point, but the source checks for
the root before recursing, so the model never needs that case.  `isDir p`
is `Path.is_dir()` of the path `p`. -/

/-- Embedding of `find_temdir`: check whether `search_path / 'TEMplates'`
is a directory; if not, fail with `TemdirDoesNotExist` at the root and
recurse on the parent elsewhere.  (The two match arms share the source's
single leading `is_dir` check; they are split only so the recursion is
structural on the path.) -/
def find_temdir (isDir : List String → Bool) : List String → Except TemError (List String)
  | [] =>
    if isDir ["TEMplates"] then .ok ["TEMplates"]
    else .error .temdirDoesNotExist
  | c :: parent =>
    if isDir ("TEMplates" :: c :: parent) then .ok ("TEMplates" :: c :: parent)
    else find_temdir isDir parent

/-- Embedding of `find_template` (tem.py lines 60-66): locate the templates
root, then require `<temdir>/<name>` to be a directory. -/
def find_template (isDir : List String → Bool) (template_name : String)
    (search_path : List String) : Except TemError (List String) :=
  match find_temdir isDir search_path with
  | .error e => .error e
  | .ok temdir_path =>
    if isDir (template_name :: temdir_path) then .ok (template_name :: temdir_path)
    else .error (.templateDoesNotExist template_name)

/-! ## Manifest reader (`read_template`, tem.py lines 69-91) -/

/-- YAML values as produced by `yaml.safe_load`: scalars, sequences and
mappings.  An empty manifest loads as `None` (`null` here). -/
inductive Yaml where
  | null
  | bool (b : Bool)
  | int (n : Int)
  | str (s : String)
  | seq (xs : List Yaml)
  | map (kvs : List (String × Yaml))

/-- The `Template` dataclass (tem.py lines 14-18). -/
structure Template where
  name : String
  template_dir : List String
  files_to_format : List String
deriving DecidableEq

/-- `Path.name`: the last component of a path (reversed representation:
the head). -/
def pathName (p : List String) : String := p.headD ""

/-- The `for filename in filenames_to_format` loop of `read_template`:
each member must be a string, otherwise `InvalidTemplateError` is raised at
the first offending member. -/
def parseFormat : List Yaml → Except Failure (List String)
  | [] => .ok []
  | y :: ys =>
    match y with
    | .str s =>
      match parseFormat ys with
      | .error e => .error e
      | .ok rest => .ok (s :: rest)
    | _ => .error (.tem (.invalidTemplate "Each member of `format` property must be a string"))

/-- Embedding of `read_template`: `y?` is the result of opening and
YAML-parsing `<path>/Temfile.yml` (`none` when the file cannot be opened,
in which case Python raises `FileNotFoundError`, a non-`TemError`).  The
root must be a dict, `format` (defaulting to `[]`) must be a list, and its
members must be strings. -/
def read_template (path : List String) (y? : Option Yaml) : Except Failure Template :=
  match y? with
  | none => .error (.io "Temfile.yml cannot be opened")
  | some template_data =>
    match template_data with
    | .map kvs =>
      match (kvs.lookup "format").getD (.seq []) with
      | .seq xs =>
        match parseFormat xs with
        | .error e => .error e
        | .ok files_to_format => .ok ⟨pathName path, path, files_to_format⟩
      | _ => .error (.tem (.invalidTemplate "`format` property must be a list"))
    | _ => .error (.tem (.invalidTemplate "Root element must be a dict"))

/-! ## File copier (`copy_template_files`, tem.py lines 94-113)

A directory tree: entries are regular files (with content), symbolic links
(with their literal target string), and directories (with their listing).
`LinkOracle.targetDir` abstracts symlink resolution by the OS: it returns
the listing of the target directory when the link's target resolves to a
directory, and `none` when the target is a regular file or does not exist
(a dangling link). -/

mutual
inductive Entry where
  | file (content : List Char)
  | symlink (target : String)
  | dir (listing : Listing)
inductive Listing where
  | nil
  | cons (name : String) (entry : Entry) (rest : Listing)
end

structure LinkOracle where
  targetDir : String → Option Listing

/-- `Path.is_dir()` on a directory entry: true for directories, false for
regular files, and for symlinks it follows the link: true exactly when the
target resolves to a directory. -/
def entry_is_dir (or : LinkOracle) : Entry → Bool
  | .file _ => false
  | .dir _ => true
  | .symlink t => (or.targetDir t).isSome

mutual
/-- `shutil.copytree(src, dst, symlinks=True, ignore_dangling_symlinks=True)`
applied below the top level: directories are recreated, file contents are
copied, and every inner symlink (dangling or not) is recreated as a symlink
with the same target. -/
def copytreeEntry : Entry → Entry
  | .file c => .file c
  | .symlink t => .symlink t
  | .dir l => .dir (copytreeListing l)
def copytreeListing : Listing → Listing
  | .nil => .nil
  | .cons n e rest => .cons n (copytreeEntry e) (copytreeListing rest)
end

/-- The listing `shutil.copytree` walks for a top-level child that
`is_dir()` accepted: for a real directory its own listing; for a symlink to
a directory, `os.scandir` follows the link, so the target's listing. -/
def dirListingOf (or : LinkOracle) : Entry → Listing
  | .dir l => l
  | .symlink t => (or.targetDir t).getD .nil
  | .file _ => .nil

/-- Embedding of `copy_template_files`: iterate the template directory's
children; skip the excluded name `Temfile.yml`; children that `is_dir()`
accepts (directories, and symlinks resolving to directories) go through
`copytree` (which creates a real directory at the destination); everything
else goes through `shutil.copy(..., follow_symlinks=False)`, which copies a
regular file's content and recreates a symlink (even dangling) as a symlink
with the same target.  The result is the listing created inside the
destination directory. -/
def copy_template_files (or : LinkOracle) : Listing → Listing
  | .nil => .nil
  | .cons n e rest =>
    if n = "Temfile.yml" then copy_template_files or rest
    else if entry_is_dir or e then
      .cons n (.dir (copytreeListing (dirListingOf or e))) (copy_template_files or rest)
    else
      match e with
      | .file c => .cons n (.file c) (copy_template_files or rest)
      | .symlink t => .cons n (.symlink t) (copy_template_files or rest)
      | .dir l => .cons n (.dir l) (copy_template_files or rest)

def lookupL (n : String) : Listing → Option Entry
  | .nil => none
  | .cons m e rest => if m = n then some e else lookupL n rest

def namesOf : Listing → List String
  | .nil => []
  | .cons m _ rest => m :: namesOf rest

/-! ## Command layer (tem.py lines 125-205) -/

/-- Association-list lookup for the argument dictionary (keys compared by
structural equality). -/
def lookupKV (k : List Char) : List (List Char × List Char) → Option (List Char)
  | [] => none
  | (k₀, v₀) :: rest => if k₀ = k then some v₀ else lookupKV k rest

/-- Python dict assignment `d[key] = value`: an existing key keeps its
position and gets the new value (last wins); a new key is appended. -/
def insertKV (m : List (List Char × List Char)) (k v : List Char) :
    List (List Char × List Char) :=
  if (lookupKV k m).isSome then
    m.map fun kv => if kv.1 = k then (k, v) else kv
  else m ++ [(k, v)]

/-- Python `str.partition('=')` restricted to what the parser uses: the
text before the first `=`, and `some` of the text after it (`none` when the
string contains no `=`). -/
def partitionEq : List Char → List Char × Option (List Char)
  | [] => ([], none)
  | c :: rest =>
    if c = '=' then ([], some rest)
    else
      let p := partitionEq rest
      (c :: p.1, p.2)

/-- The key grammar `re.fullmatch(r'[a-zA-Z0-9_-]+', key)`: one or more
letters, digits, underscores or hyphens. -/
def isKeyChar (c : Char) : Bool :=
  ('a' ≤ c ∧ c ≤ 'z') ∨ ('A' ≤ c ∧ c ≤ 'Z') ∨ ('0' ≤ c ∧ c ≤ '9') ∨ c = '_' ∨ c = '-'

def validKey (k : List Char) : Bool :=
  !k.isEmpty && k.all isKeyChar

/-- The `use` command's data (`UseCommand.__init__`): template name and the
key→value argument dictionary in insertion order. -/
structure UseCmd where
  template_name : String
  arguments : List (List Char × List Char)
deriving DecidableEq

/-- The command variants produced by `parse_command`. -/
inductive Command where
  | use (c : UseCmd)
  | list
  | help
deriving DecidableEq

/-- The `for raw_kv_pair in raw_kv_pairs` loop of `parse_use_command`:
split each argument at the first `=` (no `=` is a usage error), validate
the key, and store the pair (last value wins for duplicate keys). -/
def parseKVs (acc : List (List Char × List Char)) :
    List (List Char) → Except TemError (List (List Char × List Char))
  | [] => .ok acc
  | raw :: rest =>
    match partitionEq raw with
    | (_, none) => .error (.usageError "Template arguments must be `key=value` pairs" false)
    | (key, some value) =>
      if validKey key then parseKVs (insertKV acc key value) rest
      else .error (.usageError ("Invalid key `" ++ String.mk key ++ "`") false)

/-- Embedding of `parse_use_command` (tem.py lines 168-190). -/
def parse_use_command (args : List String) : Except TemError Command :=
  match args with
  | [] => .error (.usageError "Template name must be specified" false)
  | template_name :: raw_kv_pairs =>
    if template_name.data.contains '/' || template_name.data.contains '\\'
        || template_name.data.contains '\x00' then
      .error (.usageError ("Invalid template name: `" ++ template_name ++ "`") false)
    else
      match parseKVs [] (raw_kv_pairs.map String.data) with
      | .error e => .error e
      | .ok kvs => .ok (.use ⟨template_name, kvs⟩)

/-- Embedding of `parse_command` (tem.py lines 194-205): fewer than two
argv entries is a usage error offering help; otherwise dispatch on the
command word, ignoring `args` for `list` and `help`. -/
def parse_command : List String → Except TemError Command
  | _argv0 :: command :: args =>
    if command = "use" then parse_use_command args
    else if command = "list" then .ok .list
    else if command = "help" then .ok .help
    else .error (.usageError ("Invalid command: `" ++ command ++ "`") true)
  | _ => .error (.usageError "You must specify a command to run" true)

/-- The fixed usage text `HelpCommand.run` prints, one line per `print`. -/
def helpLines : List String :=
  [ "Usage: tem <command> [args...]",
    "Available commands with their accepted options:",
    "    use <template> [key1=value1 [...]]   -- Use a template",
    "    list                                 -- List available templates",
    "    help                                 -- Display this help message" ]

/-! ## Running commands over a modelled filesystem -/

/-- The filesystem as the program queries it.  Paths are reversed component
lists relative to the root; `children p` is `Path.iterdir` order for the
directory `p`; `yaml p` is the parse result of the file `p / Temfile.yml`
(`none` when it cannot be opened or parsed); `listing p` is the tree under
directory `p`; `fileText f` is `read_text()` of the path `f` relative to
the current directory (`none` when unreadable). -/
structure FS where
  isDir : List String → Bool
  children : List String → List String
  yaml : List String → Option Yaml
  oracle : LinkOracle
  listing : List String → Listing
  fileText : String → Option (List Char)

/-- The `for filepath in template.files_to_format` loop of
`UseCommand.run`: each listed file is read from the current directory
(raising if missing) and rewritten via `format_file`.  The returned list
holds the new contents, in order. -/
def formatAll (fs : FS) (args : List (List Char × List Char)) :
    List String → Except Failure (List (List Char))
  | [] => .ok []
  | f :: rest =>
    match fs.fileText f with
    | none => .error (.io ("cannot open " ++ f))
    | some content =>
      match formatAll fs args rest with
      | .error e => .error e
      | .ok outs => .ok (format_file args content :: outs)

/-- Embedding of `UseCommand.run` (tem.py lines 131-136): resolve the
template from the current directory `rp`, read its manifest, copy its files
into the current directory, then format each listed file.  Returns the
copied listing and the formatted contents. -/
def runUse (fs : FS) (rp : List String) (u : UseCmd) :
    Except Failure (Listing × List (List Char)) :=
  match find_template fs.isDir u.template_name rp with
  | .error e => .error (.tem e)
  | .ok template_path =>
    match read_template template_path (fs.yaml template_path) with
    | .error e => .error e
    | .ok template =>
      let copied := copy_template_files fs.oracle (fs.listing template_path)
      match formatAll fs u.arguments template.files_to_format with
      | .error e => .error e
      | .ok outs => .ok (copied, outs)

/-- The `for template_path in temdir_path.iterdir()` loop of
`ListCommand.run`: read each child's manifest and print its name.  The
first component is what reached stdout (names printed before any failure),
the second the failure, if any, that aborted the loop. -/
def listLoop (fs : FS) (td : List String) :
    List String → List String × Option Failure
  | [] => ([], none)
  | c :: rest =>
    match read_template (c :: td) (fs.yaml (c :: td)) with
    | .error e => ([], some e)
    | .ok t =>
      let r := listLoop fs td rest
      (t.name :: r.1, r.2)

/-- Embedding of `ListCommand.run` (tem.py lines 139-144). -/
def runList (fs : FS) (rp : List String) : List String × Option Failure :=
  match find_temdir fs.isDir rp with
  | .error e => ([], some (.tem e))
  | .ok temdir_path => listLoop fs temdir_path (fs.children temdir_path)

/-- Observable outcome of one process invocation: exit code, stdout lines,
stderr lines. -/
structure RunOut where
  exitCode : Nat
  stdout : List String
  stderr : List String
deriving DecidableEq

/-- Message `main` (or the interpreter) puts on stderr for a failure:
`TemError`s are caught and printed as `Error: <message>`; any other
exception escapes `main` and the interpreter prints a traceback (modelled
as a `Traceback` line), in both cases exiting with a non-zero code. -/
def failureMessage : Failure → String
  | .tem e => "Error: " ++ temErrorMessage e
  | .io m => "Traceback (most recent call last): " ++ m

/-- Embedding of `main` (tem.py lines 208-214) plus the `run` methods:
parse `argv`, run the resulting command against the filesystem `fs` with
current directory `rp`, and report exit code, stdout and stderr. -/
def tem_main (fs : FS) (rp : List String) (argv : List String) : RunOut :=
  match parse_command argv with
  | .error e => ⟨1, [], ["Error: " ++ temErrorMessage e]⟩
  | .ok .help => ⟨0, helpLines, []⟩
  | .ok .list =>
    match runList fs rp with
    | (out, none) => ⟨0, out, []⟩
    | (out, some f) => ⟨1, out, [failureMessage f]⟩
  | .ok (.use u) =>
    match runUse fs rp u with
    | .ok _ => ⟨0, [], []⟩
    | .error f => ⟨1, [], [failureMessage f]⟩

/-! ## Claim C3: the directory locator -/

/-- Claim C3: `find_temdir` is total (it is a Lean function), and for every
start directory `rp` (a reversed component list whose suffixes are exactly
the start directory and its ancestors, `[]` being the root): if no ancestor
up to and including the root has a `TEMplates` child directory it fails
with the templates-root-not-found error, and if some ancestor has one it
returns the `TEMplates` child of the nearest (deepest) such ancestor. -/
theorem c3_find_temdir_nearest :
    ∀ (isDir : List String → Bool) (rp : List String),
      (find_temdir isDir rp = .error .temdirDoesNotExist ↔
        ∀ s, s <:+ rp → isDir ("TEMplates" :: s) = false)
      ∧ (∀ a, a <:+ rp → isDir ("TEMplates" :: a) = true →
          ∃ b, b <:+ rp ∧ isDir ("TEMplates" :: b) = true
            ∧ find_temdir isDir rp = .ok ("TEMplates" :: b)
            ∧ ∀ c, c <:+ rp → isDir ("TEMplates" :: c) = true → c.length ≤ b.length) := by
  intro isDir rp
  induction rp with
  | nil =>
    cases h : isDir ["TEMplates"] with
    | false =>
      have hfind : find_temdir isDir [] = .error .temdirDoesNotExist := by
        simp [find_temdir, h]
      constructor
      · rw [hfind]
        constructor
        · intro _ s hs
          rw [List.suffix_nil.mp hs]
          exact h
        · intro _
          rfl
      · intro a ha hdir
        rw [List.suffix_nil.mp ha] at hdir
        rw [h] at hdir
        exact absurd hdir (by simp)
    | true =>
      have hfind : find_temdir isDir [] = .ok ["TEMplates"] := by
        simp [find_temdir, h]
      constructor
      · rw [hfind]
        constructor
        · intro hcontra
          exact absurd hcontra (by simp)
        · intro hall
          have := hall [] (List.suffix_refl _)
          rw [h] at this
          exact absurd this (by simp)
      · intro a ha hdir
        refine ⟨[], List.suffix_refl _, h, hfind, ?_⟩
        intro c hc _
        rw [List.suffix_nil.mp hc]
  | cons d t ih =>
    cases h : isDir ("TEMplates" :: d :: t) with
    | true =>
      have hfind : find_temdir isDir (d :: t) = .ok ("TEMplates" :: d :: t) := by
        simp [find_temdir, h]
      constructor
      · rw [hfind]
        constructor
        · intro hcontra
          exact absurd hcontra (by simp)
        · intro hall
          have := hall (d :: t) (List.suffix_refl _)
          rw [h] at this
          exact absurd this (by simp)
      · intro a ha hdir
        refine ⟨d :: t, List.suffix_refl _, h, hfind, ?_⟩
        intro c hc _
        exact hc.length_le
    | false =>
      have hfind : find_temdir isDir (d :: t) = find_temdir isDir t := by
        simp [find_temdir, h]
      obtain ⟨ih1, ih2⟩ := ih
      constructor
      · rw [hfind, ih1]
        constructor
        · intro hall s hs
          rcases List.suffix_cons_iff.mp hs with heq | hs'
          · rw [heq]
            exact h
          · exact hall s hs'
        · intro hall s hs
          exact hall s (List.suffix_cons_iff.mpr (Or.inr hs))
      · intro a ha hdir
        rcases List.suffix_cons_iff.mp ha with heq | ha'
        · rw [heq] at hdir
          rw [h] at hdir
          exact absurd hdir (by simp)
        · obtain ⟨b, hb1, hb2, hb3, hb4⟩ := ih2 a ha' hdir
          refine ⟨b, List.suffix_cons_iff.mpr (Or.inr hb1), hb2, ?_, ?_⟩
          · rw [hfind]
            exact hb3
          · intro c hc hcdir
            rcases List.suffix_cons_iff.mp hc with heq | hc'
            · rw [heq] at hcdir
              rw [h] at hcdir
              exact absurd hcdir (by simp)
            · exact hb4 c hc' hcdir

/-- Filesystem predicate for the C3 witness: exactly `/a/TEMplates` exists
as a directory (paths are reversed component lists). -/
def c3DirW : List String → Bool :=
  fun p => p == ["TEMplates", "a"]

/-- Claim C3 (witness): starting from `/a/b`, with `/a/TEMplates` the only
`TEMplates` directory, the locator finds it as the nearest one. -/
theorem c3_witness :
    ∃ b, b <:+ ["b", "a"] ∧ c3DirW ("TEMplates" :: b) = true
      ∧ find_temdir c3DirW ["b", "a"] = .ok ("TEMplates" :: b)
      ∧ ∀ c, c <:+ ["b", "a"] → c3DirW ("TEMplates" :: c) = true → c.length ≤ b.length :=
  (c3_find_temdir_nearest c3DirW ["b", "a"]).2 ["a"] ⟨["b"], rfl⟩ (by decide)

/-! ## Claim C4: `use` with a missing template -/

/-- Claim C4: whenever the templates root is located but has no child
directory named after the requested template (whose name passes the
character check so parsing succeeds), `tem use <name>` exits with code 1
and the stderr message contains `No such template: <name>`. -/
theorem c4_no_such_template :
    ∀ (fs : FS) (rp : List String) (name : String) (td : List String),
      find_temdir fs.isDir rp = .ok td →
      fs.isDir (name :: td) = false →
      (name.data.contains '/' || name.data.contains '\\'
        || name.data.contains '\x00') = false →
      (tem_main fs rp ["tem", "use", name]).exitCode = 1
      ∧ ∃ pre post, (tem_main fs rp ["tem", "use", name]).stderr
          = [pre ++ ("No such template: " ++ name) ++ post] := by
  intro fs rp name td h1 h2 h3
  have hparse : parse_command ["tem", "use", name] = .ok (.use ⟨name, []⟩) := by
    show parse_use_command [name] = _
    rw [parse_use_command]
    rw [if_neg (by rw [h3]; simp)]
    rfl
  have hft : find_template fs.isDir name rp = .error (.templateDoesNotExist name) := by
    simp [find_template, h1, h2]
  have hrun : runUse fs rp ⟨name, []⟩ = .error (.tem (.templateDoesNotExist name)) := by
    simp [runUse, hft]
  have hmain : tem_main fs rp ["tem", "use", name]
      = ⟨1, [], ["Error: " ++ ("No such template: " ++ name)]⟩ := by
    simp [tem_main, hparse, hrun, failureMessage, temErrorMessage]
  rw [hmain]
  exact ⟨rfl, "Error: ", "", by simp⟩

/-- Filesystem for the C4 witness: the current directory contains an empty
`TEMplates` directory and nothing else. -/
def fsNoTemplate : FS :=
  ⟨fun p => p == ["TEMplates"], fun _ => [], fun _ => none,
    ⟨fun _ => none⟩, fun _ => Listing.nil, fun _ => none⟩

/-- Claim C4 (witness): `tem use bogus` with an empty templates root exits
1 with `No such template: bogus` on stderr. -/
theorem c4_witness :
    (tem_main fsNoTemplate [] ["tem", "use", "bogus"]).exitCode = 1
    ∧ ∃ pre post, (tem_main fsNoTemplate [] ["tem", "use", "bogus"]).stderr
        = [pre ++ ("No such template: " ++ "bogus") ++ post] :=
  c4_no_such_template fsNoTemplate [] "bogus" ["TEMplates"] rfl rfl (by decide)

/-! ## Claim C10: `list` and `help` ignore trailing arguments -/

/-- Claim C10: for command words `list` and `help`, `parse_command` ignores
everything after the command word, producing the same command for any
trailing arguments; in particular `tem help extra...` still prints the
usage text and exits 0. -/
theorem c10_trailing_args_ignored :
    ∀ (argv0 : String) (rest rest' : List String) (fs : FS) (rp : List String),
      parse_command (argv0 :: "list" :: rest) = .ok .list
      ∧ parse_command (argv0 :: "help" :: rest) = .ok .help
      ∧ parse_command (argv0 :: "list" :: rest) = parse_command (argv0 :: "list" :: rest')
      ∧ parse_command (argv0 :: "help" :: rest) = parse_command (argv0 :: "help" :: rest')
      ∧ tem_main fs rp (argv0 :: "help" :: rest) = ⟨0, helpLines, []⟩ :=
  fun _ _ _ _ _ => ⟨rfl, rfl, rfl, rfl, rfl⟩

/-! ## Claim C5: manifest validation -/

theorem parseFormat_error_of_non_str :
    ∀ xs : List Yaml, (∃ x ∈ xs, ∀ s, x ≠ .str s) →
      parseFormat xs
        = .error (.tem (.invalidTemplate "Each member of `format` property must be a string")) := by
  intro xs
  induction xs with
  | nil =>
    intro h
    obtain ⟨x, hx, _⟩ := h
    exact absurd hx (List.not_mem_nil x)
  | cons y ys ih =>
    intro h
    obtain ⟨x, hx, hxs⟩ := h
    rcases List.mem_cons.mp hx with heq | hmem
    · subst heq
      cases x with
      | str s => exact absurd rfl (hxs s)
      | null => rfl
      | bool b => rfl
      | int n => rfl
      | seq l => rfl
      | map kvs => rfl
    · cases y with
      | str s =>
        rw [parseFormat, ih ⟨x, hmem, hxs⟩]
      | null => rfl
      | bool b => rfl
      | int n => rfl
      | seq l => rfl
      | map kvs => rfl

/-- Claim C5: `read_template` fails on an unreadable/missing manifest
(with a non-`TemError` exception), fails with the distinct
invalid-manifest errors when the root is not a mapping, when a present
`format` entry is not a sequence, and when a member of `format` is not a
string; and a mapping without a `format` key yields a `Template` with an
empty `files_to_format`. -/
theorem c5_read_template_validation :
    (∀ path, read_template path none = .error (.io "Temfile.yml cannot be opened"))
    ∧ (∀ path y, (∀ kvs, y ≠ .map kvs) →
        read_template path (some y)
          = .error (.tem (.invalidTemplate "Root element must be a dict")))
    ∧ (∀ path kvs v, kvs.lookup "format" = some v → (∀ xs, v ≠ .seq xs) →
        read_template path (some (.map kvs))
          = .error (.tem (.invalidTemplate "`format` property must be a list")))
    ∧ (∀ path kvs xs, kvs.lookup "format" = some (.seq xs) →
        (∃ x ∈ xs, ∀ s, x ≠ .str s) →
        read_template path (some (.map kvs))
          = .error (.tem (.invalidTemplate "Each member of `format` property must be a string")))
    ∧ (∀ path kvs, kvs.lookup "format" = none →
        read_template path (some (.map kvs)) = .ok ⟨pathName path, path, []⟩) := by
  refine ⟨fun path => rfl, ?_, ?_, ?_, ?_⟩
  · intro path y hy
    cases y with
    | map kvs => exact absurd rfl (hy kvs)
    | null => rfl
    | bool b => rfl
    | int n => rfl
    | str s => rfl
    | seq xs => rfl
  · intro path kvs v hlk hv
    rw [read_template]
    rw [hlk]
    cases v with
    | seq xs => exact absurd rfl (hv xs)
    | null => rfl
    | bool b => rfl
    | int n => rfl
    | str s => rfl
    | map m => rfl
  · intro path kvs xs hlk hex
    rw [read_template]
    rw [hlk]
    show (match parseFormat xs with
      | Except.error e => Except.error e
      | Except.ok files_to_format =>
          Except.ok (⟨pathName path, path, files_to_format⟩ : Template)) = _
    rw [parseFormat_error_of_non_str xs hex]
  · intro path kvs hlk
    rw [read_template]
    rw [hlk]
    rfl

/-- Claim C5 (witness): a manifest that is a mapping without a `format`
key produces a template with an empty list of files to format. -/
theorem c5_witness :
    read_template ["t"] (some (.map [("other", .int 1)])) = .ok ⟨"t", ["t"], []⟩ :=
  c5_read_template_validation.2.2.2.2 ["t"] [("other", .int 1)] rfl

/-! ## Claim C6: parsing `use` arguments -/

/-- An argument after the template name is well-formed when it contains a
`=` and the part before the first `=` matches the key grammar. -/
def wellFormedArg (s : List Char) : Bool :=
  match partitionEq s with
  | (k, some _) => validKey k
  | (_, none) => false

/-- The template-name character check of `parse_use_command`: no `/`, `\`
or NUL. -/
def nameOk (s : String) : Bool :=
  !(s.data.contains '/' || s.data.contains '\\' || s.data.contains '\x00')

theorem lookupKV_map_replace_self (k v : List Char) :
    ∀ m : List (List Char × List Char), (lookupKV k m).isSome = true →
      lookupKV k (m.map fun kv => if kv.1 = k then (k, v) else kv) = some v := by
  intro m
  induction m with
  | nil => intro h; simp [lookupKV] at h
  | cons kv0 m' ih =>
    intro h
    by_cases hk : kv0.1 = k
    · simp only [List.map_cons, if_pos hk]
      rw [lookupKV, if_pos rfl]
    · simp only [List.map_cons, if_neg hk]
      rw [lookupKV, if_neg hk]
      apply ih
      rw [lookupKV, if_neg hk] at h
      exact h

theorem lookupKV_map_replace_ne (k v k' : List Char) (hne : k' ≠ k) :
    ∀ m : List (List Char × List Char),
      lookupKV k' (m.map fun kv => if kv.1 = k then (k, v) else kv) = lookupKV k' m := by
  intro m
  induction m with
  | nil => rfl
  | cons kv0 m' ih =>
    by_cases hk : kv0.1 = k
    · simp only [List.map_cons, if_pos hk]
      rw [lookupKV, lookupKV]
      rw [if_neg (fun hc => hne hc.symm), if_neg (by rw [hk]; exact fun hc => hne hc.symm)]
      exact ih
    · simp only [List.map_cons, if_neg hk]
      rw [lookupKV, lookupKV]
      by_cases hk' : kv0.1 = k'
      · rw [if_pos hk', if_pos hk']
      · rw [if_neg hk', if_neg hk']
        exact ih

theorem lookupKV_append_single_self (k v : List Char) :
    ∀ m : List (List Char × List Char), lookupKV k m = none →
      lookupKV k (m ++ [(k, v)]) = some v := by
  intro m
  induction m with
  | nil => intro _; rw [List.nil_append, lookupKV, if_pos rfl]
  | cons kv0 m' ih =>
    intro h
    by_cases hk : kv0.1 = k
    · rw [lookupKV, if_pos hk] at h
      simp at h
    · rw [List.cons_append, lookupKV, if_neg hk]
      apply ih
      rw [lookupKV, if_neg hk] at h
      exact h

theorem lookupKV_append_single_ne (k v k' : List Char) (hne : k' ≠ k) :
    ∀ m : List (List Char × List Char),
      lookupKV k' (m ++ [(k, v)]) = lookupKV k' m := by
  intro m
  induction m with
  | nil =>
    rw [List.nil_append, lookupKV, lookupKV, if_neg (fun hc => hne hc.symm)]
    rfl
  | cons kv0 m' ih =>
    rw [List.cons_append, lookupKV, lookupKV]
    by_cases hk' : kv0.1 = k'
    · rw [if_pos hk', if_pos hk']
    · rw [if_neg hk', if_neg hk']
      exact ih

theorem lookupKV_insertKV_self (m : List (List Char × List Char)) (k v : List Char) :
    lookupKV k (insertKV m k v) = some v := by
  rw [insertKV]
  cases h : (lookupKV k m).isSome with
  | true =>
    rw [if_pos rfl]
    exact lookupKV_map_replace_self k v m h
  | false =>
    rw [if_neg (by simp)]
    apply lookupKV_append_single_self
    cases hl : lookupKV k m with
    | none => rfl
    | some w => rw [hl] at h; simp at h

theorem lookupKV_insertKV_ne (m : List (List Char × List Char)) (k v k' : List Char)
    (hne : k' ≠ k) : lookupKV k' (insertKV m k v) = lookupKV k' m := by
  rw [insertKV]
  cases h : (lookupKV k m).isSome with
  | true =>
    rw [if_pos rfl]
    exact lookupKV_map_replace_ne k v k' hne m
  | false =>
    rw [if_neg (by simp)]
    exact lookupKV_append_single_ne k v k' hne m

/-- Processing one well-formed `key=value` argument inserts its pair. -/
theorem parseKVs_step (g : List Char) (acc : List (List Char × List Char))
    (rest : List (List Char)) (hwf : wellFormedArg g = true) :
    parseKVs acc (g :: rest)
      = parseKVs (insertKV acc (partitionEq g).1 ((partitionEq g).2.getD [])) rest := by
  cases hp : partitionEq g with
  | mk k vo =>
    cases vo with
    | none =>
      rw [wellFormedArg, hp] at hwf
      simp at hwf
    | some v =>
      have hv : validKey k = true := by
        rw [wellFormedArg, hp] at hwf
        exact hwf
      simp [parseKVs, hp, hv]

theorem parseKVs_bad_sep :
    ∀ (good : List (List Char)) (acc : List (List Char × List Char))
      (r : List Char) (rest : List (List Char)),
      (∀ g ∈ good, wellFormedArg g = true) → (partitionEq r).2 = none →
      parseKVs acc (good ++ r :: rest)
        = .error (.usageError "Template arguments must be `key=value` pairs" false) := by
  intro good
  induction good with
  | nil =>
    intro acc r rest _ hr
    cases hp : partitionEq r with
    | mk k vo =>
      cases vo with
      | none => simp [parseKVs, hp]
      | some v =>
        rw [hp] at hr
        simp at hr
  | cons g good' ih =>
    intro acc r rest hgood hr
    rw [List.cons_append, parseKVs_step g acc _ (hgood g (List.mem_cons_self g good'))]
    exact ih _ r rest (fun g' hg' => hgood g' (List.mem_cons_of_mem g hg')) hr

theorem parseKVs_bad_key :
    ∀ (good : List (List Char)) (acc : List (List Char × List Char))
      (r : List Char) (rest : List (List Char)),
      (∀ g ∈ good, wellFormedArg g = true) →
      (partitionEq r).2.isSome = true → validKey (partitionEq r).1 = false →
      parseKVs acc (good ++ r :: rest)
        = .error (.usageError ("Invalid key `" ++ String.mk (partitionEq r).1 ++ "`") false) := by
  intro good
  induction good with
  | nil =>
    intro acc r rest _ hsome hbad
    cases hp : partitionEq r with
    | mk k vo =>
      cases vo with
      | none =>
        rw [hp] at hsome
        simp at hsome
      | some v =>
        rw [hp] at hbad
        simp only [] at hbad
        simp [parseKVs, hp, hbad]
  | cons g good' ih =>
    intro acc r rest hgood hsome hbad
    rw [List.cons_append, parseKVs_step g acc _ (hgood g (List.mem_cons_self g good'))]
    exact ih _ r rest (fun g' hg' => hgood g' (List.mem_cons_of_mem g hg')) hsome hbad

theorem parseKVs_ok :
    ∀ (raws : List (List Char)) (acc : List (List Char × List Char)),
      (∀ r ∈ raws, wellFormedArg r = true) →
      ∃ kvs, parseKVs acc raws = .ok kvs := by
  intro raws
  induction raws with
  | nil => intro acc _; exact ⟨acc, rfl⟩
  | cons r rest ih =>
    intro acc hall
    rw [parseKVs_step r acc rest (hall r (List.mem_cons_self r rest))]
    exact ih _ (fun g hg => hall g (List.mem_cons_of_mem r hg))

/-- Keys of a raw argument list. -/
def keysOf (raws : List (List Char)) : List (List Char) :=
  raws.map fun r => (partitionEq r).1

theorem keysOf_cons (r : List Char) (rest : List (List Char)) :
    keysOf (r :: rest) = (partitionEq r).1 :: keysOf rest := rfl

theorem parseKVs_preserve :
    ∀ (raws : List (List Char)) (acc kvs : List (List Char × List Char)) (k : List Char),
      parseKVs acc raws = .ok kvs → k ∉ keysOf raws →
      lookupKV k kvs = lookupKV k acc := by
  intro raws
  induction raws with
  | nil =>
    intro acc kvs k hok _
    rw [parseKVs] at hok
    injection hok with h
    rw [h]
  | cons r rest ih =>
    intro acc kvs k hok hk
    rw [parseKVs] at hok
    split at hok
    · exact absurd hok (by simp)
    · rename_i kr v hp
      split at hok
      · rename_i hv
        have hfst : (partitionEq r).1 = kr := by rw [hp]
        have hkne : k ≠ kr := by
          intro hc
          apply hk
          rw [keysOf_cons, hfst, hc]
          exact List.mem_cons_self kr _
        rw [ih _ kvs k hok (fun hc => hk (by
          rw [keysOf_cons]
          exact List.mem_cons_of_mem _ hc))]
        exact lookupKV_insertKV_ne acc kr v k hkne
      · exact absurd hok (by simp)

theorem parseKVs_lookup :
    ∀ (raws : List (List Char)) (acc kvs : List (List Char × List Char)),
      parseKVs acc raws = .ok kvs → (keysOf raws).Nodup →
      ∀ r ∈ raws, ∀ v, (partitionEq r).2 = some v →
        lookupKV (partitionEq r).1 kvs = some v := by
  intro raws
  induction raws with
  | nil =>
    intro acc kvs _ _ r hr
    exact absurd hr (List.not_mem_nil r)
  | cons r0 rest ih =>
    intro acc kvs hok hnd r hr v hv
    have hnd' : ((partitionEq r0).1 ∉ keysOf rest) ∧ (keysOf rest).Nodup := by
      rw [keysOf_cons] at hnd
      exact ⟨(List.nodup_cons.mp hnd).1, (List.nodup_cons.mp hnd).2⟩
    rw [parseKVs] at hok
    split at hok
    · exact absurd hok (by simp)
    · rename_i k0 v0 hp
      split at hok
      · rcases List.mem_cons.mp hr with heq | hmem
        · subst heq
          have hfst : (partitionEq r).1 = k0 := by rw [hp]
          have hsnd : (partitionEq r).2 = some v0 := by rw [hp]
          have hv0 : v0 = v := Option.some.inj (hsnd.symm.trans hv)
          subst hv0
          rw [hfst]
          have hk1 : k0 ∉ keysOf rest := by
            have h3 := hnd'.1
            rw [hfst] at h3
            exact h3
          have hpres : lookupKV k0 kvs = lookupKV k0 (insertKV acc k0 v0) :=
            parseKVs_preserve rest _ kvs k0 hok hk1
          rw [hpres]
          exact lookupKV_insertKV_self acc k0 v0
        · exact ih _ kvs hok hnd'.2 r hmem v hv
      · exact absurd hok (by simp)

/-- Does a parse outcome carry a usage error that offers help? -/
def offersHelp : Except TemError Command → Bool
  | .error (.usageError _ offerHelp) => offerHelp
  | _ => false

/-- Claim C6 (counterexample): with no positional argument,
`parse_use_command` raises its usage error with `offer_help = False` (the
printed message does not offer help, contrary to the claim); and a
template name containing `/` is a further failure mode the claim's
"fails exactly as follows" list omits. -/
theorem c6_counterexample :
    parse_use_command [] = .error (.usageError "Template name must be specified" false)
    ∧ offersHelp (parse_use_command []) = false
    ∧ parse_use_command ["a/b"]
        = .error (.usageError "Invalid template name: `a/b`" false) :=
  ⟨rfl, rfl, rfl⟩

/-- Claim C6 (amended): parsing `use` arguments behaves as follows.  With
no positional argument it fails with a usage error that does not offer
help; a template name containing `/`, `\` or NUL fails with an
invalid-name usage error; otherwise the arguments after the template name
are processed left to right: the first one without `=` fails with the
`key=value` usage error, the first one whose key (text before the first
`=`) fails `[A-Za-z0-9_-]+` fails with an invalid-key usage error naming
it, and if all are well-formed, parsing succeeds and each key maps to the
text after the first `=` of its argument (stated for pairwise-distinct
keys; duplicates are last-wins). -/
theorem c6_parse_use_args :
    (parse_use_command [] = .error (.usageError "Template name must be specified" false))
    ∧ (∀ (tn : String) (raws : List String), nameOk tn = false →
        parse_use_command (tn :: raws)
          = .error (.usageError ("Invalid template name: `" ++ tn ++ "`") false))
    ∧ (∀ (tn : String) (good : List String) (r : String) (rest : List String),
        nameOk tn = true → (∀ g ∈ good, wellFormedArg g.data = true) →
        (partitionEq r.data).2 = none →
        parse_use_command (tn :: (good ++ r :: rest))
          = .error (.usageError "Template arguments must be `key=value` pairs" false))
    ∧ (∀ (tn : String) (good : List String) (r : String) (rest : List String),
        nameOk tn = true → (∀ g ∈ good, wellFormedArg g.data = true) →
        (partitionEq r.data).2.isSome = true → validKey (partitionEq r.data).1 = false →
        parse_use_command (tn :: (good ++ r :: rest))
          = .error (.usageError
              ("Invalid key `" ++ String.mk (partitionEq r.data).1 ++ "`") false))
    ∧ (∀ (tn : String) (raws : List String),
        nameOk tn = true → (∀ r ∈ raws, wellFormedArg r.data = true) →
        ∃ kvs, parse_use_command (tn :: raws) = .ok (.use ⟨tn, kvs⟩)
          ∧ ((keysOf (raws.map String.data)).Nodup →
              ∀ r ∈ raws, ∀ v, (partitionEq r.data).2 = some v →
                lookupKV (partitionEq r.data).1 kvs = some v)) := by
  have hcond : ∀ tn : String, nameOk tn = true →
      (tn.data.contains '/' || tn.data.contains '\\' || tn.data.contains '\x00') = false := by
    intro tn h
    rw [nameOk] at h
    cases hc : (tn.data.contains '/' || tn.data.contains '\\' || tn.data.contains '\x00')
    · rfl
    · rw [hc] at h
      simp at h
  refine ⟨rfl, ?_, ?_, ?_, ?_⟩
  · intro tn raws hbad
    rw [parse_use_command]
    rw [if_pos ?_]
    rw [nameOk] at hbad
    cases hc : (tn.data.contains '/' || tn.data.contains '\\' || tn.data.contains '\x00')
    · rw [hc] at hbad
      simp at hbad
    · simp [hc]
  · intro tn good r rest hname hgood hr
    rw [parse_use_command]
    rw [if_neg (by rw [hcond tn hname]; simp)]
    rw [List.map_append, List.map_cons]
    rw [parseKVs_bad_sep (good.map String.data) [] r.data (rest.map String.data)
      (fun g hg => by
        obtain ⟨g0, hg0, heq⟩ := List.mem_map.mp hg
        rw [← heq]
        exact hgood g0 hg0) hr]
  · intro tn good r rest hname hgood hsome hbad
    rw [parse_use_command]
    rw [if_neg (by rw [hcond tn hname]; simp)]
    rw [List.map_append, List.map_cons]
    rw [parseKVs_bad_key (good.map String.data) [] r.data (rest.map String.data)
      (fun g hg => by
        obtain ⟨g0, hg0, heq⟩ := List.mem_map.mp hg
        rw [← heq]
        exact hgood g0 hg0) hsome hbad]
  · intro tn raws hname hall
    obtain ⟨kvs, hkvs⟩ := parseKVs_ok (raws.map String.data) []
      (fun r hr => by
        obtain ⟨r0, hr0, heq⟩ := List.mem_map.mp hr
        rw [← heq]
        exact hall r0 hr0)
    refine ⟨kvs, ?_, ?_⟩
    · rw [parse_use_command]
      rw [if_neg (by rw [hcond tn hname]; simp)]
      rw [hkvs]
    · intro hnd r hr v hv
      exact parseKVs_lookup (raws.map String.data) [] kvs hkvs hnd r.data
        (List.mem_map.mpr ⟨r, hr, rfl⟩) v hv

/-- Claim C6 (witness): `foo a=1 b=2` parses into the use command with
`a ↦ 1` and `b ↦ 2`. -/
theorem c6_witness :
    ∃ kvs, parse_use_command ["foo", "a=1", "b=2"] = .ok (.use ⟨"foo", kvs⟩)
      ∧ ((keysOf (["a=1", "b=2"].map String.data)).Nodup →
          ∀ r ∈ ["a=1", "b=2"], ∀ v, (partitionEq r.data).2 = some v →
            lookupKV (partitionEq r.data).1 kvs = some v) :=
  c6_parse_use_args.2.2.2.2 "foo" ["a=1", "b=2"] (by decide)
    (by intro r hr; fin_cases hr <;> decide)

/-! ## Claim C7: the `list` command -/

theorem read_template_ok_name (p : List String) (y? : Option Yaml) (t : Template)
    (h : read_template p y? = .ok t) : t.name = pathName p := by
  rw [read_template.eq_def] at h
  split at h
  · exact absurd h (by simp)
  · split at h
    · split at h
      · split at h
        · exact absurd h (by simp)
        · injection h with h'
          rw [← h']
      · exact absurd h (by simp)
    · exact absurd h (by simp)

theorem listLoop_all_ok (fs : FS) (td : List String) :
    ∀ children : List String,
      (∀ c ∈ children, ∃ t, read_template (c :: td) (fs.yaml (c :: td)) = .ok t) →
      listLoop fs td children = (children, none) := by
  intro children
  induction children with
  | nil => intro _; rfl
  | cons c rest ih =>
    intro h
    obtain ⟨t, ht⟩ := h c (List.mem_cons_self c rest)
    rw [listLoop, ht]
    rw [ih (fun c' hc' => h c' (List.mem_cons_of_mem c hc'))]
    have hn : t.name = c := read_template_ok_name _ _ _ ht
    simp [hn]

theorem listLoop_fail (fs : FS) (td : List String) :
    ∀ (good : List String) (c : String) (rest : List String) (f : Failure),
      (∀ g ∈ good, ∃ t, read_template (g :: td) (fs.yaml (g :: td)) = .ok t) →
      read_template (c :: td) (fs.yaml (c :: td)) = .error f →
      listLoop fs td (good ++ c :: rest) = (good, some f) := by
  intro good
  induction good with
  | nil =>
    intro c rest f _ herr
    rw [List.nil_append, listLoop, herr]
  | cons g good' ih =>
    intro c rest f hgood herr
    obtain ⟨t, ht⟩ := hgood g (List.mem_cons_self g good')
    rw [List.cons_append, listLoop, ht]
    rw [ih c rest f (fun g' hg' => hgood g' (List.mem_cons_of_mem g hg')) herr]
    have hn : t.name = g := read_template_ok_name _ _ _ ht
    simp [hn]

/-- Claim C7 (amended): `list` reads the manifest of every child of the
templates root in `iterdir` order, printing each name as it goes.  If every
child has a valid manifest it prints exactly all the children (in the
canonical layout these are the template subdirectories) and exits 0; if
some child's manifest is invalid or missing, the command exits 1 — but the
names read before the failing child have already been printed, so stdout
may hold a partial listing (contrary to the claim's "no partial
best-effort listing"; see the counterexample). -/
theorem c7_list_behavior :
    ∀ (fs : FS) (rp td : List String), find_temdir fs.isDir rp = .ok td →
      ((∀ c ∈ fs.children td, ∃ t, read_template (c :: td) (fs.yaml (c :: td)) = .ok t) →
        tem_main fs rp ["tem", "list"] = ⟨0, fs.children td, []⟩)
      ∧ (∀ (good : List String) (c : String) (rest : List String) (f : Failure),
          fs.children td = good ++ c :: rest →
          (∀ g ∈ good, ∃ t, read_template (g :: td) (fs.yaml (g :: td)) = .ok t) →
          read_template (c :: td) (fs.yaml (c :: td)) = .error f →
          tem_main fs rp ["tem", "list"] = ⟨1, good, [failureMessage f]⟩) := by
  intro fs rp td h
  have hpc : parse_command ["tem", "list"] = .ok .list := rfl
  have hrl : runList fs rp = listLoop fs td (fs.children td) := by
    simp [runList, h]
  constructor
  · intro hall
    have hloop := listLoop_all_ok fs td (fs.children td) hall
    simp [tem_main, hpc, hrl, hloop]
  · intro good c rest f hch hgood herr
    have hloop : listLoop fs td (fs.children td) = (good, some f) := by
      rw [hch]
      exact listLoop_fail fs td good c rest f hgood herr
    simp [tem_main, hpc, hrl, hloop]

/-- Filesystem for the C7 witness: a templates root with two template
directories `A` and `B`, both with valid (empty-mapping) manifests. -/
def fsListOk : FS :=
  ⟨fun p => p == ["TEMplates"],
    fun p => if p = ["TEMplates"] then ["A", "B"] else [],
    fun p => if p = ["A", "TEMplates"] then some (.map [])
      else if p = ["B", "TEMplates"] then some (.map []) else none,
    ⟨fun _ => none⟩, fun _ => Listing.nil, fun _ => none⟩

/-- Claim C7 (witness): with all manifests valid, `tem list` prints every
template name and exits 0. -/
theorem c7_witness :
    tem_main fsListOk [] ["tem", "list"] = ⟨0, fsListOk.children ["TEMplates"], []⟩ :=
  (c7_list_behavior fsListOk [] ["TEMplates"] rfl).1 (by
    intro c hc
    have hch : fsListOk.children ["TEMplates"] = ["A", "B"] := rfl
    rw [hch] at hc
    fin_cases hc
    · exact ⟨⟨"A", ["A", "TEMplates"], []⟩, rfl⟩
    · exact ⟨⟨"B", ["B", "TEMplates"], []⟩, rfl⟩)

/-- Filesystem for the C7 counterexample: child `A` has a valid manifest,
child `B` has a missing one. -/
def fsListPartial : FS :=
  ⟨fun p => p == ["TEMplates"],
    fun p => if p = ["TEMplates"] then ["A", "B"] else [],
    fun p => if p = ["A", "TEMplates"] then some (.map []) else none,
    ⟨fun _ => none⟩, fun _ => Listing.nil, fun _ => none⟩

/-- Claim C7 (counterexample): when a later child's manifest is missing,
`tem list` does fail (exit 1), but it has already printed the earlier
names: stdout holds the partial listing `A`, so the claim's "producing no
partial best-effort listing" is false. -/
theorem c7_counterexample :
    (tem_main fsListPartial [] ["tem", "list"]).exitCode = 1
    ∧ (tem_main fsListPartial [] ["tem", "list"]).stdout = ["A"]
    ∧ (tem_main fsListPartial [] ["tem", "list"]).stdout.isEmpty = false :=
  ⟨rfl, rfl, rfl⟩

/-! ## Claim C8: copying template files -/

mutual
theorem copytreeEntry_id : ∀ e : Entry, copytreeEntry e = e
  | .file c => rfl
  | .symlink t => rfl
  | .dir l => by rw [copytreeEntry, copytreeListing_id l]
theorem copytreeListing_id : ∀ l : Listing, copytreeListing l = l
  | .nil => rfl
  | .cons n e rest => by
    rw [copytreeListing, copytreeEntry_id e, copytreeListing_id rest]
end

/-- What lands in the destination for one non-excluded top-level child:
children accepted by `is_dir` become real directories holding the
`copytree` of the listing being walked; everything else is copied as-is
(`shutil.copy` with `follow_symlinks=False`). -/
def copyEntryTop (or : LinkOracle) (e : Entry) : Entry :=
  if entry_is_dir or e then .dir (copytreeListing (dirListingOf or e)) else e

theorem copy_cons (or : LinkOracle) (n : String) (e : Entry) (rest : Listing) :
    copy_template_files or (.cons n e rest)
      = if n = "Temfile.yml" then copy_template_files or rest
        else .cons n (copyEntryTop or e) (copy_template_files or rest) := by
  show (if n = "Temfile.yml" then copy_template_files or rest
    else if entry_is_dir or e then
      Listing.cons n (Entry.dir (copytreeListing (dirListingOf or e)))
        (copy_template_files or rest)
    else
      match e with
      | Entry.file c => Listing.cons n (Entry.file c) (copy_template_files or rest)
      | Entry.symlink t => Listing.cons n (Entry.symlink t) (copy_template_files or rest)
      | Entry.dir l => Listing.cons n (Entry.dir l) (copy_template_files or rest)) = _
  by_cases hn : n = "Temfile.yml"
  · rw [if_pos hn, if_pos hn]
  · rw [if_neg hn, if_neg hn]
    by_cases hd : entry_is_dir or e = true
    · rw [if_pos hd, copyEntryTop, if_pos hd]
    · rw [if_neg hd, copyEntryTop, if_neg hd]
      cases e with
      | file c => rfl
      | symlink t => rfl
      | dir l => rfl

theorem copy_lookup (or : LinkOracle) :
    ∀ (l : Listing) (n : String), n ≠ "Temfile.yml" →
      lookupL n (copy_template_files or l)
        = (lookupL n l).map (fun e => copyEntryTop or e)
  | .nil, n, _ => rfl
  | .cons m e rest, n, hn => by
    rw [copy_cons]
    by_cases hm : m = "Temfile.yml"
    · rw [if_pos hm]
      rw [lookupL, if_neg (fun hc => hn (by rw [← hc]; exact hm))]
      exact copy_lookup or rest n hn
    · rw [if_neg hm]
      rw [lookupL, lookupL]
      by_cases hmn : m = n
      · rw [if_pos hmn, if_pos hmn]
        rfl
      · rw [if_neg hmn, if_neg hmn]
        exact copy_lookup or rest n hn

theorem copy_no_manifest (or : LinkOracle) :
    ∀ l : Listing, lookupL "Temfile.yml" (copy_template_files or l) = none
  | .nil => rfl
  | .cons m e rest => by
    rw [copy_cons]
    by_cases hm : m = "Temfile.yml"
    · rw [if_pos hm]
      exact copy_no_manifest or rest
    · rw [if_neg hm]
      rw [lookupL, if_neg hm]
      exact copy_no_manifest or rest

theorem copy_names (or : LinkOracle) :
    ∀ l : Listing,
      namesOf (copy_template_files or l)
        = (namesOf l).filter (fun n => n ≠ "Temfile.yml")
  | .nil => rfl
  | .cons m e rest => by
    rw [copy_cons, namesOf]
    by_cases hm : m = "Temfile.yml"
    · rw [if_pos hm]
      rw [List.filter_cons]
      simp [hm, copy_names or rest]
    · rw [if_neg hm]
      rw [namesOf, List.filter_cons]
      simp [hm, copy_names or rest]

/-- Claim C8 (amended): `copy_template_files` copies every direct child of
the template directory except `Temfile.yml`, which is excluded
unconditionally.  Inside copied subtrees `copytree(symlinks=True)`
reproduces everything verbatim, symlinks included.  At the top level:
regular files are copied, a symlink whose target is not a directory
(including a dangling one, which causes no failure) is reproduced as a
symlink with the same target — but a top-level symlink whose target is an
existing directory is accepted by `is_dir()` and handed to `copytree`,
which resolves it into a real directory holding a copy of the target's
listing (contrary to the claim's "never resolved"; see the
counterexample). -/
theorem c8_copy_behavior :
    ∀ (or : LinkOracle) (l : Listing),
      (copytreeListing l = l)
      ∧ (namesOf (copy_template_files or l)
          = (namesOf l).filter (fun n => n ≠ "Temfile.yml"))
      ∧ (lookupL "Temfile.yml" (copy_template_files or l) = none)
      ∧ (∀ n c, n ≠ "Temfile.yml" → lookupL n l = some (.file c) →
          lookupL n (copy_template_files or l) = some (.file c))
      ∧ (∀ n sub, n ≠ "Temfile.yml" → lookupL n l = some (.dir sub) →
          lookupL n (copy_template_files or l) = some (.dir sub))
      ∧ (∀ n t, n ≠ "Temfile.yml" → lookupL n l = some (.symlink t) →
          or.targetDir t = none →
          lookupL n (copy_template_files or l) = some (.symlink t))
      ∧ (∀ n t sub, n ≠ "Temfile.yml" → lookupL n l = some (.symlink t) →
          or.targetDir t = some sub →
          lookupL n (copy_template_files or l) = some (.dir sub)) := by
  intro or l
  refine ⟨copytreeListing_id l, copy_names or l, copy_no_manifest or l, ?_, ?_, ?_, ?_⟩
  · intro n c hn hl
    rw [copy_lookup or l n hn, hl]
    simp [copyEntryTop, entry_is_dir]
  · intro n sub hn hl
    rw [copy_lookup or l n hn, hl]
    simp [copyEntryTop, entry_is_dir, dirListingOf, copytreeListing_id]
  · intro n t hn hl hor
    rw [copy_lookup or l n hn, hl]
    simp [copyEntryTop, entry_is_dir, hor]
  · intro n t sub hn hl hor
    rw [copy_lookup or l n hn, hl]
    simp [copyEntryTop, entry_is_dir, dirListingOf, hor, copytreeListing_id]

/-- Link oracle for the C8 counterexample: the target string `target`
resolves to a directory containing one file. -/
def c8Oracle : LinkOracle :=
  ⟨fun t => if t = "target" then some (.cons "inner" (.file ['x']) .nil) else none⟩

/-- Template listing for the C8 counterexample: one top-level symlink to
that directory. -/
def c8Src : Listing := .cons "link" (.symlink "target") .nil

/-- Is an optional entry a symlink with the given target? -/
def isSymlinkTo (e : Option Entry) (t : String) : Bool :=
  match e with
  | some (.symlink t') => t' == t
  | _ => false

/-- Claim C8 (counterexample): a top-level symlink whose target is an
existing directory is not reproduced as a symlink: `is_dir()` follows the
link and `copytree` resolves it, so the destination receives a real
directory with the target's contents instead. -/
theorem c8_counterexample :
    lookupL "link" c8Src = some (.symlink "target")
    ∧ lookupL "link" (copy_template_files c8Oracle c8Src)
        = some (.dir (.cons "inner" (.file ['x']) .nil))
    ∧ isSymlinkTo (lookupL "link" (copy_template_files c8Oracle c8Src)) "target" = false :=
  ⟨rfl, rfl, rfl⟩

/-- Link oracle for the C8 witness: no symlink target resolves to a
directory. -/
def c8OracleNone : LinkOracle := ⟨fun _ => none⟩

/-- Template listing for the C8 witness: the manifest plus a dangling
symlink. -/
def c8SrcW : Listing :=
  .cons "Temfile.yml" (.file ['y']) (.cons "dang" (.symlink "nowhere") .nil)

/-- Claim C8 (witness): a dangling top-level symlink is reproduced as a
symlink with the same target (and causes no failure), while the manifest
is excluded. -/
theorem c8_witness :
    lookupL "dang" (copy_template_files c8OracleNone c8SrcW)
      = some (.symlink "nowhere") :=
  (c8_copy_behavior c8OracleNone c8SrcW).2.2.2.2.2.1 "dang" "nowhere"
    (by decide) rfl rfl

end Tem
